import Mathlib

/-!
Shallow embedding of heptiolabs/sign-off-checker.

The Go program has two halves:

* `pkg/webhook/webhook.go`: an HTTP handler that validates a GitHub
  webhook signature, parses the event, fetches every commit of the
  pull request, decides the aggregate Signed-off-by verdict, and posts
  one commit status per commit.
* `pkg/register/{register.go,hooks.go,protection.go,contributing.go}`:
  a periodic sweep that, per organization, lists repositories, filters
  to DCO repositories, and reconciles a webhook plus a branch
  protection rule on each.

Remote GitHub API responses are modelled as oracle values passed in
(page lists, result triples, error options); the Lean functions mirror
the Go control flow over those oracles.
-/

namespace SignOffChecker

/-- Modelled from the spec: the fixed status-check context string from the
`pkg/constants` package (not included in the sources), used to tag the
commit statuses and the required status check.  Every function treats it
as an opaque fixed string, so its exact value is immaterial. -/
def SignOffCheckerContext : String := "signed-off-by"

/-! ## Sign-off verdict engine (`pkg/webhook/webhook.go`) -/

/-- A commit of a pull request: `*commit.SHA` and `*commit.Commit.Message`. -/
structure CommitRecord where
  sha : String
  message : String
deriving DecidableEq, Repr

/-- ASCII lower-casing of one character, the case folding relevant to the
`i` regex flag on the all-ASCII pattern `signed-off-by:`. -/
def asciiLower (c : Char) : Char :=
  if 'A' ≤ c ∧ c ≤ 'Z' then Char.ofNat (c.toNat + 32) else c

/-- Split a character list at every newline, the line structure the `m`
regex flag gives `^`: one line before every `'\n'` plus the final line. -/
def splitLinesAux : List Char → List (List Char)
  | [] => [[]]
  | c :: rest =>
    match splitLinesAux rest with
    | [] => [[]]
    | l :: ls => if c = '\n' then [] :: l :: ls else (c :: l) :: ls

/-- Embedding of `testRE.MatchString` for
`testRE = regexp.MustCompile("(?mi)^signed-off-by:")`: with the `m` flag,
`^` matches at the start of the text and after every newline, so the regex
matches iff some line starts with `signed-off-by:` up to ASCII case. -/
def matchesSignOff (msg : String) : Bool :=
  (splitLinesAux msg.data).any
    (fun line => "signed-off-by:".data.isPrefixOf (line.map asciiLower))

/-- The `signMissing` aggregate of `handlePullRequest`: true iff some commit
message does not match the sign-off regex. -/
def signMissing (commits : List CommitRecord) : Bool :=
  commits.any (fun c => !(matchesSignOff c.message))

/-- A `github.RepoStatus` as filled in by `handlePullRequest`. -/
structure RepoStatus where
  state : String
  description : String
  targetURL : String
  context : String
deriving DecidableEq, Repr

/-- The status record `handlePullRequest` builds for every commit of the
pull request, depending only on the aggregate `signMissing` flag. -/
def mkStatus (owner repo : String) (missing : Bool) : RepoStatus :=
  { state := if missing then "failure" else "success"
    description :=
      if missing then "A commit in PR is missing Signed-off-by"
      else "Commit has Signed-off-by"
    targetURL :=
      "https://github.com/" ++ owner ++ "/" ++ repo ++ "/blob/master/CONTRIBUTING.md"
    context := SignOffCheckerContext }

/-- The commit-listing pagination loop of `handlePullRequest`: each element
of `pages` is one `ListCommits` response (either an error or a page of
commits); the loop appends pages until the remote reports no next page
(end of the list).  `none` models the Go early `return` after logging
`"Error getting commits for PR"`. -/
def fetchAllCommits : List (Except String (List CommitRecord)) → Option (List CommitRecord)
  | [] => some []
  | .error _ :: _ => none
  | .ok cs :: rest => (fetchAllCommits rest).map (cs ++ ·)

/-- Outcome of the status-publishing loop: the `CreateStatus` calls issued,
in order, and the error-log lines emitted. -/
structure PublishResult where
  statusCalls : List (String × RepoStatus)
  logs : List String
deriving DecidableEq, Repr

/-- The second loop of `handlePullRequest`: one `CreateStatus` call per
commit; a failing call (`createStatusErr sha = some e`) is logged and the
loop continues with the next commit. -/
def publishLoop (owner repo : String) (missing : Bool)
    (createStatusErr : String → Option String) :
    List CommitRecord → PublishResult
  | [] => { statusCalls := [], logs := [] }
  | c :: rest =>
    let tail := publishLoop owner repo missing createStatusErr rest
    { statusCalls := (c.sha, mkStatus owner repo missing) :: tail.statusCalls
      logs :=
        match createStatusErr c.sha with
        | some e => ("Error setting status: " ++ e) :: tail.logs
        | none => tail.logs }

/-- Embedding of `handlePullRequest`: fetch all commit pages, compute the
aggregate `signMissing` verdict, then publish one status per commit. -/
def handlePullRequest (owner repo : String)
    (pages : List (Except String (List CommitRecord)))
    (createStatusErr : String → Option String) : PublishResult :=
  match fetchAllCommits pages with
  | none => { statusCalls := [], logs := ["Error getting commits for PR"] }
  | some allCommits =>
      publishLoop owner repo (signMissing allCommits) createStatusErr allCommits

/-! ## Webhook HTTP entry point (`ServeHTTP` in `pkg/webhook/webhook.go`) -/

/-- The decoded webhook event that `github.ParseWebHook` yields:
a pull-request event, a ping event, or any other (unhandled) type. -/
inductive WebhookEvent where
  | pullRequest (owner repo : String) (number : Nat)
  | ping
  | other (hooktype : String)
deriving DecidableEq, Repr

/-- An inbound webhook HTTP request: raw body bytes, the signature
header value, and the event-type header. -/
structure WebhookRequest where
  body : List Nat
  signature : List Nat
  eventType : String
deriving DecidableEq, Repr

/-- The handler's HTTP response: Go writes nothing (implicit 200) or
calls `http.Error` with status 400 and a plain-text message. -/
inductive HttpResponse where
  | ok
  | badRequest (msg : String)
deriving DecidableEq, Repr

/-- Modelled from the spec: `github.ValidatePayload` (library code, not in
the sources) accepts the request iff the signature header equals the HMAC
of the body computed with the configured secret; `hmac` is the library's
HMAC function, passed as a capability. -/
def validatePayload (hmac : List Nat → List Nat → List Nat)
    (secret : List Nat) (req : WebhookRequest) : Except String (List Nat) :=
  if req.signature = hmac secret req.body then .ok req.body
  else .error "payload signature check failed"

/-- Embedding of `Handler.ServeHTTP`: validate the payload signature
(400 on failure), parse the event (400 on failure), then dispatch:
pull-request events run `handlePullRequest`, ping events are dropped,
anything else is logged as unhandled.  Besides the HTTP response it
returns the publish trace and the handler's own log lines.
`parse` is the `github.ParseWebHook` capability. -/
def serveHTTP (hmac : List Nat → List Nat → List Nat)
    (parse : String → List Nat → Except String WebhookEvent)
    (secret : List Nat)
    (pages : List (Except String (List CommitRecord)))
    (createStatusErr : String → Option String)
    (req : WebhookRequest) : HttpResponse × PublishResult × List String :=
  match validatePayload hmac secret req with
  | .error e =>
      (.badRequest ("Could not validate signature: " ++ e),
       { statusCalls := [], logs := [] }, [])
  | .ok payload =>
    match parse req.eventType payload with
    | .error e =>
        (.badRequest ("Error parsing payload: " ++ e),
         { statusCalls := [], logs := [] }, [])
    | .ok (.pullRequest owner repo _) =>
        (.ok, handlePullRequest owner repo pages createStatusErr, [])
    | .ok .ping => (.ok, { statusCalls := [], logs := [] }, [])
    | .ok (.other hooktype) =>
        (.ok, { statusCalls := [], logs := [] },
         ["Unhandled hook type: " ++ hooktype])

/-! ## Register sweep data model (`pkg/register`) -/

/-- The fields of `*github.Repository` the register package reads:
`GetName`, `GetFullName`, `GetHTMLURL`, `GetDefaultBranch`. -/
structure Repo where
  name : String
  fullName : String
  htmlURL : String
  defaultBranch : String
deriving DecidableEq, Repr

/-- A repository webhook as listed by `ListHooks`; the register code only
reads `hook.Config["url"]`, which may be absent. -/
structure Hook where
  configURL : Option String
deriving DecidableEq, Repr

/-- One `ListHooks` page response: a 404 (no hooks configured at all),
a transport/API error, or a page of hooks. -/
inductive HookPageResp where
  | notFound
  | failed (msg : String)
  | page (hooks : List Hook)
deriving DecidableEq, Repr

/-- Embedding of `hasSignOffHook`: walk the pages of `ListHooks`; a 404
response is a clean `false`; any other error aborts with a formatted
error; a hook whose configured URL equals the target URL returns `true`
immediately; exhausting the pages (NextPage = 0) returns `false`. -/
def hasSignOffHook (fullName url : String) : List HookPageResp → Except String Bool
  | [] => .ok false
  | .notFound :: _ => .ok false
  | .failed e :: _ =>
      .error ("Error listing hooks for \"" ++ fullName ++ "\": " ++ e)
  | .page hooks :: rest =>
      if hooks.any (fun h => h.configURL = some url) then .ok true
      else hasSignOffHook fullName url rest

/-- Embedding of `addSignOffHook`: issues one `CreateHook` call; the
oracle `createErr` is that call's error, wrapped like the Go code does. -/
def addSignOffHook (createErr : Option String) : Except String Unit :=
  match createErr with
  | some e => .error ("Error registering webhook: " ++ e)
  | none => .ok ()

/-- Substring containment over character lists: `sub` occurs in the list
iff it is a prefix at some position. -/
def containsChars (sub : List Char) : List Char → Bool
  | [] => sub.isPrefixOf []
  | c :: rest => sub.isPrefixOf (c :: rest) || containsChars sub rest

/-- Embedding of `isDCO`: the CONTRIBUTING.md document declares the DCO
iff it contains the literal marker (via `strings.Contains`). -/
def isDCO (contributingDoc : String) : Bool :=
  containsChars "Developer Certificate of Origin".data contributingDoc.data

/-- The remote outcome of the CONTRIBUTING.md fetch in `getContributing`:
a 404, an error (transport, API, or base64-decoding), or the decoded
document. -/
inductive ContribResult where
  | notFound
  | failed (msg : String)
  | found (doc : String)
deriving DecidableEq, Repr

/-- Embedding of `getContributing`: a 404 is an empty document, not an
error; other failures are wrapped with the repository's full name. -/
def getContributing (fullName : String) : ContribResult → Except String String
  | .notFound => .ok ""
  | .failed e =>
      .error ("Error getting CONTRIBUTING.md for \"" ++ fullName ++ "\": " ++ e)
  | .found doc => .ok doc

/-! ## Branch protection reconciler (`pkg/register/protection.go`) -/

/-- `github.RequiredStatusChecks`: strictness flag plus required-context
names. -/
structure RequiredStatusChecks where
  strict : Bool
  contexts : List String
deriving DecidableEq, Repr

/-- The part of `github.Protection` the code reads:
`EnforceAdmins.Enabled` and the (possibly absent) required status
checks. -/
structure Protection where
  enforceAdmins : Bool
  requiredStatusChecks : Option RequiredStatusChecks
deriving DecidableEq, Repr

/-- A `github.ProtectionRequest` as passed to `UpdateBranchProtection`
(both calls in the code target branch `"master"`). -/
structure ProtectionRequest where
  enforceAdmins : Bool
  requiredStatusChecks : RequiredStatusChecks
deriving DecidableEq, Repr

/-- The Go triple returned by `GetBranchProtection`: the protection
object (nil or present), the response (nil or its status code), and the
error (nil or its message). -/
structure GetProtectionResult where
  protection : Option Protection
  respStatus : Option Nat
  err : Option String
deriving DecidableEq, Repr

/-- A Go runtime panic reachable in the embedded code (dereferencing a
nil pointer). -/
inductive GoPanic where
  | nilPointerDereference
deriving DecidableEq, Repr

/-- `ListRequiredStatusChecksContexts` outcome: a 404 (no protection
configured), an error, or the context list. -/
inductive ContextsResult where
  | notFound
  | failed (msg : String)
  | ok (contexts : List String)
deriving DecidableEq, Repr

/-- Embedding of `hasBranchProtection`: a 404 means no branch protection,
returned as `false`; other errors are wrapped; otherwise `true` iff the
fixed context appears among the required contexts. -/
def hasBranchProtection (fullName : String) : ContextsResult → Except String Bool
  | .notFound => .ok false
  | .failed e =>
      .error ("Error getting branch protection configuration for \"" ++
        fullName ++ "\": " ++ e)
  | .ok contexts => .ok (contexts.any (fun c => c = SignOffCheckerContext))

/-- Embedding of `addBranchProtection`.  It mirrors the Go control flow
exactly: first the guard `err != nil && resp != nil && resp.StatusCode != 404`,
then the unconditional `resp.StatusCode == 404` test — which dereferences
`resp` even when it is nil (modelled as `GoPanic.nilPointerDereference`).
On a 404 it writes a fresh configuration (admins enforced, non-strict,
exactly the fixed context); otherwise it fills in an empty
required-status-checks block if absent, appends the fixed context, and
writes back preserving the existing admin-enforcement flag.  The result
carries the `UpdateBranchProtection` requests issued and the returned
error, with `updateErr` the oracle for that call's failure. -/
def addBranchProtection (fullName : String) (get : GetProtectionResult)
    (updateErr : Option String) :
    Except GoPanic (List ProtectionRequest × Option String) :=
  if get.err.isSome && get.respStatus.isSome && get.respStatus != some 404 then
    .ok ([], some ("Error getting branch protection configuration for \"" ++
      fullName ++ "\": " ++ get.err.getD ""))
  else
    match get.respStatus with
    | none => .error .nilPointerDereference
    | some code =>
      if code = 404 then
        let req : ProtectionRequest :=
          { enforceAdmins := true
            requiredStatusChecks :=
              { strict := false, contexts := [SignOffCheckerContext] } }
        .ok ([req], updateErr.map
          (fun e => "Error setting branch protection configuration for \"" ++
            fullName ++ "\": " ++ e))
      else
        match get.protection with
        | none => .error .nilPointerDereference
        | some existing =>
          let rsc := existing.requiredStatusChecks.getD
            { strict := false, contexts := [] }
          let req : ProtectionRequest :=
            { enforceAdmins := existing.enforceAdmins
              requiredStatusChecks :=
                { rsc with contexts := rsc.contexts ++ [SignOffCheckerContext] } }
          .ok ([req], updateErr.map
            (fun e => "Error updating branch protection configuration for \"" ++
              fullName ++ "\": " ++ e))

/-! ## Organization sweep (`Register` in `pkg/register/register.go`) -/

/-- The remote GitHub state a sweep runs against: per-organization
repository pages and, per repository full name, the CONTRIBUTING.md
fetch outcome, the hook pages, and the outcomes of the mutating calls. -/
structure World where
  orgRepoPages : String → List (Except String (List Repo))
  contributing : String → ContribResult
  hookPages : String → List HookPageResp
  createHookErr : String → Option String
  protContexts : String → ContextsResult
  getProtection : String → GetProtectionResult
  updateProtErr : String → Option String

/-- Observable actions of a sweep, in program order: log lines, the two
existence checks, and the two mutating calls. -/
inductive Action where
  | log (msg : String)
  | checkHook (repoFullName : String)
  | createHook (repoFullName : String)
  | checkProtection (repoFullName : String)
  | updateProtection (repoFullName : String) (req : ProtectionRequest)
deriving DecidableEq, Repr

/-- Is the action one of the two mutating GitHub calls? -/
def Action.isMutation : Action → Bool
  | .createHook _ => true
  | .updateProtection _ _ => true
  | _ => false

/-- How a sweep stops early: an error returned to the caller, or a Go
panic. -/
inductive SweepStop where
  | err (msg : String)
  | panicked
deriving DecidableEq, Repr

/-- The `dryRunMsg` suffix computed at the top of `Register`. -/
def dryRunMsg (dryRun : Bool) : String := if dryRun then " (DRY RUN)" else ""

/-- Lines 54–66 of `register.go`: check `hasSignOffHook`; when absent,
log the install action and, unless dry-run, call `addSignOffHook`. -/
def webhookStep (w : World) (dryRun : Bool) (url : String) (repo : Repo) :
    List Action × Option SweepStop :=
  match hasSignOffHook repo.fullName url (w.hookPages repo.fullName) with
  | .error e => ([.checkHook repo.fullName], some (.err e))
  | .ok true => ([.checkHook repo.fullName], none)
  | .ok false =>
    let logA := Action.log ("Installing webhook for " ++ repo.htmlURL ++ dryRunMsg dryRun)
    if dryRun then ([.checkHook repo.fullName, logA], none)
    else
      match addSignOffHook (w.createHookErr repo.fullName) with
      | .error e =>
          ([.checkHook repo.fullName, logA, .createHook repo.fullName],
           some (.err e))
      | .ok _ =>
          ([.checkHook repo.fullName, logA, .createHook repo.fullName], none)

/-- Lines 68–80 of `register.go`: check `hasBranchProtection`; when
absent, log the configure action and, unless dry-run, call
`addBranchProtection`. -/
def protectionStep (w : World) (dryRun : Bool) (repo : Repo) :
    List Action × Option SweepStop :=
  match hasBranchProtection repo.fullName (w.protContexts repo.fullName) with
  | .error e => ([.checkProtection repo.fullName], some (.err e))
  | .ok true => ([.checkProtection repo.fullName], none)
  | .ok false =>
    let logA := Action.log
      ("Configuring branch protection for " ++ repo.htmlURL ++ dryRunMsg dryRun)
    if dryRun then ([.checkProtection repo.fullName, logA], none)
    else
      match addBranchProtection repo.fullName (w.getProtection repo.fullName)
          (w.updateProtErr repo.fullName) with
      | .error _ => ([.checkProtection repo.fullName, logA], some .panicked)
      | .ok (reqs, some e) =>
          ([.checkProtection repo.fullName, logA] ++
            reqs.map (fun r => Action.updateProtection repo.fullName r),
           some (.err e))
      | .ok (reqs, none) =>
          ([.checkProtection repo.fullName, logA] ++
            reqs.map (fun r => Action.updateProtection repo.fullName r), none)

/-- The body of the inner repository loop of `Register`: fetch
CONTRIBUTING.md (propagating errors), skip non-DCO repositories, then
run the webhook step and — only if it did not stop — the protection
step. -/
def processRepo (w : World) (dryRun : Bool) (url : String) (repo : Repo) :
    List Action × Option SweepStop :=
  match getContributing repo.fullName (w.contributing repo.fullName) with
  | .error e => ([], some (.err e))
  | .ok doc =>
    if !isDCO doc then ([], none)
    else
      let s1 := webhookStep w dryRun url repo
      match s1.2 with
      | some stop => (s1.1, some stop)
      | none =>
        let s2 := protectionStep w dryRun repo
        (s1.1 ++ s2.1, s2.2)

/-- The repository loop of `Register`: process repositories in order,
stopping at the first error. -/
def processRepos (w : World) (dryRun : Bool) (url : String) :
    List Repo → List Action × Option SweepStop
  | [] => ([], none)
  | r :: rest =>
    let s := processRepo w dryRun url r
    match s.2 with
    | some stop => (s.1, some stop)
    | none =>
      let t := processRepos w dryRun url rest
      (s.1 ++ t.1, t.2)

/-- Embedding of `listOrgRepos`: collect all pages of `ListByOrg`,
wrapping a page error with the organization name. -/
def listOrgRepos (org : String) :
    List (Except String (List Repo)) → Except String (List Repo)
  | [] => .ok []
  | .error e :: _ =>
      .error ("Error getting repositories for organization \"" ++ org ++ "\": " ++ e)
  | .ok rs :: rest => (listOrgRepos org rest).map (rs ++ ·)

/-- The body of the organization loop of `Register`: log the per-org
line, list the repositories (propagating errors), then run the
repository loop. -/
def processOrg (w : World) (dryRun : Bool) (url : String) (org : String) :
    List Action × Option SweepStop :=
  let logA := Action.log ("checking all repos in the \"" ++ org ++ "\" organization")
  match listOrgRepos org (w.orgRepoPages org) with
  | .error e => ([logA], some (.err e))
  | .ok repos =>
    let s := processRepos w dryRun url repos
    (logA :: s.1, s.2)

/-- Embedding of `Register`: walk the organizations in order, stopping
at the first error (which is returned to the caller); a full pass
returns `none`. -/
def Register (w : World) (dryRun : Bool) (url : String) :
    List String → List Action × Option SweepStop
  | [] => ([], none)
  | org :: rest =>
    let s := processOrg w dryRun url org
    match s.2 with
    | some stop => (s.1, some stop)
    | none =>
      let t := Register w dryRun url rest
      (s.1 ++ t.1, t.2)

/-! ## Helper lemmas -/

/-- The publish loop issues one `CreateStatus` call per commit, in order,
all carrying the status derived from the aggregate verdict. -/
lemma publishLoop_statusCalls (owner repo : String) (missing : Bool)
    (f : String → Option String) :
    ∀ commits : List CommitRecord,
      (publishLoop owner repo missing f commits).statusCalls
        = commits.map (fun c => (c.sha, mkStatus owner repo missing))
  | [] => rfl
  | c :: rest => by
      simp [publishLoop, publishLoop_statusCalls owner repo missing f rest]

/-- The publish loop logs exactly the per-commit failures, in order. -/
lemma publishLoop_logs (owner repo : String) (missing : Bool)
    (f : String → Option String) :
    ∀ commits : List CommitRecord,
      (publishLoop owner repo missing f commits).logs
        = commits.filterMap
            (fun c => (f c.sha).map (fun e => "Error setting status: " ++ e))
  | [] => rfl
  | c :: rest => by
      cases h : f c.sha <;>
        simp [publishLoop, publishLoop_logs owner repo missing f rest, h]

/-- `List.any` is invariant under permutation. -/
lemma perm_any_eq {α : Type} {l l' : List α} (h : l.Perm l') (p : α → Bool) :
    l.any p = l'.any p := by
  rw [Bool.eq_iff_iff]
  simp only [List.any_eq_true]
  constructor
  · rintro ⟨x, hx, hpx⟩
    exact ⟨x, h.mem_iff.mp hx, hpx⟩
  · rintro ⟨x, hx, hpx⟩
    exact ⟨x, h.mem_iff.mpr hx, hpx⟩

/-! ## Claim theorems -/

/-- C1: the pull request's verdict is a logical AND over all commits: if
at least one commit message has no line matching `^signed-off-by:`
case-insensitively, every commit receives state `"failure"` with
description `"A commit in PR is missing Signed-off-by"`; if every commit
message has such a line, every commit receives state `"success"`. -/
theorem verdict_is_logical_and_over_commits
    (owner repo : String) (pages : List (Except String (List CommitRecord)))
    (f : String → Option String) (commits : List CommitRecord)
    (hfetch : fetchAllCommits pages = some commits) :
    ((∃ c ∈ commits, matchesSignOff c.message = false) →
      (handlePullRequest owner repo pages f).statusCalls
        = commits.map (fun c => (c.sha,
            { state := "failure"
              description := "A commit in PR is missing Signed-off-by"
              targetURL := "https://github.com/" ++ owner ++ "/" ++ repo ++
                "/blob/master/CONTRIBUTING.md"
              context := SignOffCheckerContext }))) ∧
    ((∀ c ∈ commits, matchesSignOff c.message = true) →
      (handlePullRequest owner repo pages f).statusCalls
        = commits.map (fun c => (c.sha,
            { state := "success"
              description := "Commit has Signed-off-by"
              targetURL := "https://github.com/" ++ owner ++ "/" ++ repo ++
                "/blob/master/CONTRIBUTING.md"
              context := SignOffCheckerContext }))) := by
  constructor
  · rintro ⟨c, hc, hmsg⟩
    have hmiss : signMissing commits = true := by
      simp only [signMissing, List.any_eq_true]
      exact ⟨c, hc, by simp [hmsg]⟩
    simp [handlePullRequest, hfetch, hmiss, publishLoop_statusCalls, mkStatus]
  · intro hall
    have hmiss : signMissing commits = false := by
      simp only [signMissing, List.any_eq_false]
      intro c hc
      simp [hall c hc]
    simp [handlePullRequest, hfetch, hmiss, publishLoop_statusCalls, mkStatus]

/-- C1 witness: a one-commit PR whose message has no sign-off line gets a
failure status on its commit. -/
theorem verdict_is_logical_and_over_commits_witness :
    (handlePullRequest "o" "r" [.ok [⟨"s1", "typo"⟩]] (fun _ => none)).statusCalls
      = [("s1",
          { state := "failure"
            description := "A commit in PR is missing Signed-off-by"
            targetURL := "https://github.com/o/r/blob/master/CONTRIBUTING.md"
            context := SignOffCheckerContext })] :=
  (verdict_is_logical_and_over_commits "o" "r" [.ok [⟨"s1", "typo"⟩]]
      (fun _ => none) [⟨"s1", "typo"⟩] rfl).1
    ⟨⟨"s1", "typo"⟩, by simp, by decide⟩

/-- C8: the aggregate verdict is order-independent: permuting the commit
sequence yields the same `signMissing` flag, hence the same per-commit
status. -/
theorem verdict_order_independent (owner repo : String)
    (l l' : List CommitRecord) (h : l.Perm l') :
    signMissing l = signMissing l' ∧
      mkStatus owner repo (signMissing l) = mkStatus owner repo (signMissing l') := by
  have : signMissing l = signMissing l' := perm_any_eq h _
  exact ⟨this, by rw [this]⟩

/-- C8 witness: swapping a two-commit sequence leaves the verdict
unchanged. -/
theorem verdict_order_independent_witness :
    signMissing [⟨"a", "typo"⟩, ⟨"b", "Signed-off-by: Z <z@x>"⟩]
        = signMissing [⟨"b", "Signed-off-by: Z <z@x>"⟩, ⟨"a", "typo"⟩] ∧
      mkStatus "o" "r" (signMissing [⟨"a", "typo"⟩, ⟨"b", "Signed-off-by: Z <z@x>"⟩])
        = mkStatus "o" "r"
            (signMissing [⟨"b", "Signed-off-by: Z <z@x>"⟩, ⟨"a", "typo"⟩]) :=
  verdict_order_independent "o" "r" _ _ (List.Perm.swap _ _ _)

/-- C9: a pull request whose fetched commit sequence is empty has the
success verdict (`signMissing` is false) and the handler issues zero
status-creation calls and logs no error. -/
theorem empty_pr_success_no_calls (owner repo : String)
    (pages : List (Except String (List CommitRecord)))
    (f : String → Option String)
    (hfetch : fetchAllCommits pages = some []) :
    signMissing [] = false ∧
      handlePullRequest owner repo pages f = { statusCalls := [], logs := [] } := by
  refine ⟨rfl, ?_⟩
  simp [handlePullRequest, hfetch, signMissing, publishLoop]

/-- C9 witness: a single empty commit page yields the empty publish
trace. -/
theorem empty_pr_success_no_calls_witness :
    signMissing [] = false ∧
      handlePullRequest "o" "r" [.ok []] (fun _ => none)
        = { statusCalls := [], logs := [] } :=
  empty_pr_success_no_calls "o" "r" [.ok []] (fun _ => none) rfl

/-- C4: the publisher attempts exactly one status creation per commit
SHA, in order, and the set of attempts does not depend on which
per-commit calls fail; a failing call is logged. -/
theorem status_publish_best_effort (owner repo : String)
    (pages : List (Except String (List CommitRecord)))
    (f g : String → Option String) (commits : List CommitRecord)
    (hfetch : fetchAllCommits pages = some commits) :
    ((handlePullRequest owner repo pages f).statusCalls.map Prod.fst
        = commits.map CommitRecord.sha) ∧
    ((handlePullRequest owner repo pages f).statusCalls
        = (handlePullRequest owner repo pages g).statusCalls) ∧
    (∀ c ∈ commits, ∀ e, f c.sha = some e →
      ("Error setting status: " ++ e) ∈ (handlePullRequest owner repo pages f).logs) := by
  refine ⟨?_, ?_, ?_⟩
  · simp [handlePullRequest, hfetch, publishLoop_statusCalls]
  · simp [handlePullRequest, hfetch, publishLoop_statusCalls]
  · intro c hc e he
    simp only [handlePullRequest, hfetch, publishLoop_logs, List.mem_filterMap]
    exact ⟨c, hc, by simp [he]⟩

/-- C4 witness: with two commits whose first status call fails, both
commits still get a status-creation attempt and the failure is logged. -/
theorem status_publish_best_effort_witness :
    ((handlePullRequest "o" "r" [.ok [⟨"s1", "m1"⟩, ⟨"s2", "m2"⟩]]
        (fun sha => if sha = "s1" then some "boom" else none)).statusCalls.map Prod.fst
      = [⟨"s1", "m1"⟩, ⟨"s2", "m2"⟩].map CommitRecord.sha) ∧
    ("Error setting status: boom" ∈
      (handlePullRequest "o" "r" [.ok [⟨"s1", "m1"⟩, ⟨"s2", "m2"⟩]]
        (fun sha => if sha = "s1" then some "boom" else none)).logs) := by
  have h := status_publish_best_effort "o" "r" [.ok [⟨"s1", "m1"⟩, ⟨"s2", "m2"⟩]]
    (fun sha => if sha = "s1" then some "boom" else none) (fun _ => none)
    [⟨"s1", "m1"⟩, ⟨"s2", "m2"⟩] rfl
  exact ⟨h.1, h.2.2 ⟨"s1", "m1"⟩ (by simp) "boom" (by simp)⟩

/-- C6: `hasSignOffHook` returns `false` without error on zero hooks and
on a 404 response; over a normal listing it returns `true` exactly when
some page contains a hook whose configured URL equals the target URL,
and it returns `true` as soon as a matching hook is seen, whatever the
remaining pages hold. -/
theorem hasHook_false_on_missing_true_on_match (fullName url : String) :
    (hasSignOffHook fullName url [.page []] = .ok false) ∧
    (∀ rest, hasSignOffHook fullName url (.notFound :: rest) = .ok false) ∧
    (∀ pagesHooks : List (List Hook),
      (hasSignOffHook fullName url (pagesHooks.map .page) = .ok true ↔
        ∃ hs ∈ pagesHooks, ∃ h ∈ hs, h.configURL = some url)) ∧
    (∀ hooks rest, (∃ h ∈ hooks, h.configURL = some url) →
      hasSignOffHook fullName url (.page hooks :: rest) = .ok true) := by
  refine ⟨rfl, fun rest => rfl, ?_, ?_⟩
  · intro pagesHooks
    induction pagesHooks with
    | nil => simp [hasSignOffHook]
    | cons hs rest ih =>
      constructor
      · intro htrue
        by_cases hmatch : hs.any (fun h => h.configURL = some url) = true
        · obtain ⟨h, hmem, hurl⟩ := List.any_eq_true.mp hmatch
          exact ⟨hs, List.mem_cons_self hs rest, h, hmem, by simpa using hurl⟩
        · have hfalse : hs.any (fun h => h.configURL = some url) = false := by
            revert hmatch
            cases hs.any (fun h => h.configURL = some url) <;> simp
          have hrec : hasSignOffHook fullName url (rest.map .page) = .ok true := by
            rw [List.map_cons] at htrue
            simpa [hasSignOffHook, hfalse] using htrue
          obtain ⟨hs', hm', hrest⟩ := ih.mp hrec
          exact ⟨hs', List.mem_cons_of_mem hs hm', hrest⟩
      · rintro ⟨hs', hm', h, hmh, hurl⟩
        rcases List.mem_cons.mp hm' with rfl | hm''
        · have hmatch : hs'.any (fun h => h.configURL = some url) = true :=
            List.any_eq_true.mpr ⟨h, hmh, by simp [hurl]⟩
          simp [hasSignOffHook, hmatch]
        · by_cases hmatch : hs.any (fun h => h.configURL = some url) = true
          · simp [hasSignOffHook, hmatch]
          · have hfalse : hs.any (fun h => h.configURL = some url) = false := by
              revert hmatch
              cases hs.any (fun h => h.configURL = some url) <;> simp
            rw [List.map_cons]
            have hrec := ih.mpr ⟨hs', hm'', h, hmh, hurl⟩
            simpa [hasSignOffHook, hfalse] using hrec
  · rintro hooks rest ⟨h, hm, hu⟩
    have hmatch : hooks.any (fun h => h.configURL = some url) = true :=
      List.any_eq_true.mpr ⟨h, hm, by simp [hu]⟩
    simp [hasSignOffHook, hmatch]

/-- C6 witness: a 404 yields a clean `false`; a first-page match yields
`true` even when the next page would fail. -/
theorem hasHook_false_on_missing_true_on_match_witness :
    hasSignOffHook "acme/widget" "https://u" [.notFound] = .ok false ∧
      hasSignOffHook "acme/widget" "https://u"
        [.page [⟨some "https://u"⟩], .failed "x"] = .ok true :=
  ⟨(hasHook_false_on_missing_true_on_match "acme/widget" "https://u").2.1 [],
   (hasHook_false_on_missing_true_on_match "acme/widget" "https://u").2.2.2
     [⟨some "https://u"⟩] [.failed "x"] ⟨⟨some "https://u"⟩, by simp, rfl⟩⟩

/-- C2: `addBranchProtection` on a repository with existing protection
and required contexts `["ci/build"]` writes both `"ci/build"` and the
fixed context in that order, preserving the strictness and
admin-enforcement flags; with protection but no required-status-checks
block it writes an empty block extended by the fixed context; and when
the fixed context is already among the required contexts, the Register
flow's `hasBranchProtection` gate skips `addBranchProtection`, writing
nothing. -/
theorem addProtection_preserves_and_extends :
    (∀ (fullName : String) (ea strict : Bool) (updErr : Option String),
      addBranchProtection fullName
          ⟨some ⟨ea, some ⟨strict, ["ci/build"]⟩⟩, some 200, none⟩ updErr
        = .ok ([⟨ea, ⟨strict, ["ci/build", SignOffCheckerContext]⟩⟩],
            updErr.map (fun e =>
              "Error updating branch protection configuration for \"" ++
                fullName ++ "\": " ++ e))) ∧
    (∀ (fullName : String) (ea : Bool) (updErr : Option String),
      addBranchProtection fullName ⟨some ⟨ea, none⟩, some 200, none⟩ updErr
        = .ok ([⟨ea, ⟨false, [SignOffCheckerContext]⟩⟩],
            updErr.map (fun e =>
              "Error updating branch protection configuration for \"" ++
                fullName ++ "\": " ++ e))) ∧
    (∀ (w : World) (dryRun : Bool) (repo : Repo) (cs : List String),
      w.protContexts repo.fullName = .ok cs →
      SignOffCheckerContext ∈ cs →
      protectionStep w dryRun repo = ([.checkProtection repo.fullName], none)) := by
  refine ⟨fun fullName ea strict updErr => ?_, fun fullName ea updErr => ?_,
    fun w dryRun repo cs hw hmem => ?_⟩
  · simp [addBranchProtection]
  · simp [addBranchProtection]
  · have hgate : hasBranchProtection repo.fullName (w.protContexts repo.fullName)
        = .ok true := by
      rw [hw]
      simp only [hasBranchProtection, Except.ok.injEq]
      exact List.any_eq_true.mpr ⟨SignOffCheckerContext, hmem, by simp⟩
    simp [protectionStep, hgate]

/-- C2 witness: the concrete merge on `["ci/build"]` and the gated rerun
on a repository where the fixed context is already required. -/
theorem addProtection_preserves_and_extends_witness :
    (addBranchProtection "acme/widget"
        ⟨some ⟨true, some ⟨false, ["ci/build"]⟩⟩, some 200, none⟩ none
      = .ok ([⟨true, ⟨false, ["ci/build", SignOffCheckerContext]⟩⟩], none)) ∧
    (protectionStep
        ⟨fun _ => [], fun _ => .notFound, fun _ => [], fun _ => none,
         fun _ => .ok [SignOffCheckerContext], fun _ => ⟨none, some 404, none⟩,
         fun _ => none⟩
        false ⟨"widget", "acme/widget", "https://github.com/acme/widget", "master"⟩
      = ([.checkProtection "acme/widget"], none)) :=
  ⟨addProtection_preserves_and_extends.1 "acme/widget" true false none,
   addProtection_preserves_and_extends.2.2
     ⟨fun _ => [], fun _ => .notFound, fun _ => [], fun _ => none,
      fun _ => .ok [SignOffCheckerContext], fun _ => ⟨none, some 404, none⟩,
      fun _ => none⟩
     false ⟨"widget", "acme/widget", "https://github.com/acme/widget", "master"⟩
     [SignOffCheckerContext] rfl (by simp)⟩

/-- C10: evaluating `addBranchProtection` at a transport failure of the
initial read (`err ≠ nil`, `resp = nil`) reaches the unguarded
`resp.StatusCode` dereference and panics instead of returning: the Go
code inspects the status code of an absent response. -/
theorem addProtection_nil_resp_panics :
    addBranchProtection "acme/widget" ⟨none, none, some "connection refused"⟩ none
      = .error .nilPointerDereference := rfl

/-- C7: an inbound request whose signature header is not the HMAC of the
body under the configured secret, or whose payload fails to decode, gets
a 400 plain-text error and triggers no commit fetch and no status
publication; a request with a matching signature passes validation and,
when it decodes, is answered 200. -/
theorem webhook_rejects_bad_signature
    (hmac : List Nat → List Nat → List Nat)
    (parse : String → List Nat → Except String WebhookEvent)
    (secret : List Nat) (pages : List (Except String (List CommitRecord)))
    (f : String → Option String) (req : WebhookRequest) :
    (req.signature ≠ hmac secret req.body →
      serveHTTP hmac parse secret pages f req
        = (.badRequest ("Could not validate signature: " ++
             "payload signature check failed"),
           { statusCalls := [], logs := [] }, [])) ∧
    (req.signature = hmac secret req.body →
      ∀ e, parse req.eventType req.body = .error e →
        serveHTTP hmac parse secret pages f req
          = (.badRequest ("Error parsing payload: " ++ e),
             { statusCalls := [], logs := [] }, [])) ∧
    (req.signature = hmac secret req.body →
      ∀ ev, parse req.eventType req.body = .ok ev →
        (serveHTTP hmac parse secret pages f req).1 = .ok) := by
  refine ⟨fun hsig => ?_, fun hsig e hparse => ?_, fun hsig ev hparse => ?_⟩
  · simp [serveHTTP, validatePayload, hsig]
  · simp [serveHTTP, validatePayload, hsig, hparse]
  · cases ev <;> simp [serveHTTP, validatePayload, hsig, hparse]

/-- C7 witness: a mismatched signature is rejected with the 400 error and
the inert trace; a matching one is answered 200. -/
theorem webhook_rejects_bad_signature_witness :
    (serveHTTP (fun _ _ => []) (fun _ _ => .ok .ping) [] [] (fun _ => none)
        ⟨[], [1], "ping"⟩
      = (.badRequest ("Could not validate signature: " ++
           "payload signature check failed"),
         { statusCalls := [], logs := [] }, [])) ∧
    ((serveHTTP (fun _ _ => []) (fun _ _ => .ok .ping) [] [] (fun _ => none)
        ⟨[], [], "ping"⟩).1 = .ok) :=
  ⟨(webhook_rejects_bad_signature (fun _ _ => []) (fun _ _ => .ok .ping) [] []
      (fun _ => none) ⟨[], [1], "ping"⟩).1 (by decide),
   (webhook_rejects_bad_signature (fun _ _ => []) (fun _ _ => .ok .ping) [] []
      (fun _ => none) ⟨[], [], "ping"⟩).2.2 rfl .ping rfl⟩

/-- C3: any error aborts the whole sweep immediately: a discovery error
ends the organization after its log line; a CONTRIBUTING.md, hook-check,
hook-create, protection-check or protection-write failure stops the
repository at that step; a stopped repository ends the repository loop
with that same stop and no further repository processed; a stopped
organization ends `Register` with that same stop and no further
organization processed — there is no retry within the sweep. -/
theorem register_fail_fast (w : World) (dryRun : Bool) (url : String) :
    (∀ org e, listOrgRepos org (w.orgRepoPages org) = .error e →
      processOrg w dryRun url org
        = ([.log ("checking all repos in the \"" ++ org ++ "\" organization")],
           some (.err e))) ∧
    (∀ repo e, getContributing repo.fullName (w.contributing repo.fullName)
        = .error e →
      processRepo w dryRun url repo = ([], some (.err e))) ∧
    (∀ repo doc stop,
      getContributing repo.fullName (w.contributing repo.fullName) = .ok doc →
      isDCO doc = true →
      (webhookStep w dryRun url repo).2 = some stop →
      processRepo w dryRun url repo
        = ((webhookStep w dryRun url repo).1, some stop)) ∧
    (∀ repo doc stop,
      getContributing repo.fullName (w.contributing repo.fullName) = .ok doc →
      isDCO doc = true →
      (webhookStep w dryRun url repo).2 = none →
      (protectionStep w dryRun repo).2 = some stop →
      processRepo w dryRun url repo
        = ((webhookStep w dryRun url repo).1 ++ (protectionStep w dryRun repo).1,
           some stop)) ∧
    (∀ repo rest stop, (processRepo w dryRun url repo).2 = some stop →
      processRepos w dryRun url (repo :: rest)
        = ((processRepo w dryRun url repo).1, some stop)) ∧
    (∀ org rest stop, (processOrg w dryRun url org).2 = some stop →
      Register w dryRun url (org :: rest)
        = ((processOrg w dryRun url org).1, some stop)) := by
  refine ⟨fun org e h => ?_, fun repo e h => ?_, fun repo doc stop hc hd hw => ?_,
    fun repo doc stop hc hd hw hp => ?_, fun repo rest stop h => ?_,
    fun org rest stop h => ?_⟩
  · simp [processOrg, h]
  · simp [processRepo, h]
  · simp only [processRepo, hc, hd]
    rw [show (webhookStep w dryRun url repo)
        = ((webhookStep w dryRun url repo).1, some stop) from
      Prod.ext rfl hw]
    simp
  · simp only [processRepo, hc, hd]
    rw [show (webhookStep w dryRun url repo)
        = ((webhookStep w dryRun url repo).1, (none : Option SweepStop)) from
      Prod.ext rfl hw]
    rw [show (protectionStep w dryRun repo)
        = ((protectionStep w dryRun repo).1, some stop) from
      Prod.ext rfl hp]
    simp
  · simp only [processRepos]
    rw [show (processRepo w dryRun url repo)
        = ((processRepo w dryRun url repo).1, some stop) from
      Prod.ext rfl h]
  · simp only [Register]
    rw [show (processOrg w dryRun url org)
        = ((processOrg w dryRun url org).1, some stop) from
      Prod.ext rfl h]

/-- Remote state whose first organization's repository listing fails. -/
def failWorld : World :=
  { orgRepoPages := fun _ => [.error "boom"]
    contributing := fun _ => .notFound
    hookPages := fun _ => []
    createHookErr := fun _ => none
    protContexts := fun _ => .notFound
    getProtection := fun _ => ⟨none, some 404, none⟩
    updateProtErr := fun _ => none }

/-- C3 witness: a discovery error in the first organization ends the
sweep at once — the second organization is never processed and the
formatted error is returned. -/
theorem register_fail_fast_witness :
    Register failWorld false "https://u" ["acme", "beta"]
      = ([.log ("checking all repos in the \"" ++ "acme" ++ "\" organization")],
         some (.err ("Error getting repositories for organization \"" ++
           "acme" ++ "\": " ++ "boom"))) := by
  have h := register_fail_fast failWorld false "https://u"
  have hA := h.1 "acme"
    ("Error getting repositories for organization \"" ++ "acme" ++ "\": " ++ "boom")
    rfl
  have hF := h.2.2.2.2.2 "acme" ["beta"]
    (.err ("Error getting repositories for organization \"" ++ "acme" ++
      "\": " ++ "boom"))
    (by rw [hA])
  rw [hF, hA]

/-- In dry-run mode the webhook step only checks and logs. -/
lemma webhookStep_dry_no_mutation (w : World) (url : String) (repo : Repo) :
    ∀ a ∈ (webhookStep w true url repo).1, a.isMutation = false := by
  intro a ha
  unfold webhookStep at ha
  rcases hres : hasSignOffHook repo.fullName url (w.hookPages repo.fullName)
    with e | b
  · rw [hres] at ha
    simp at ha
    simp [ha, Action.isMutation]
  · rw [hres] at ha
    cases b
    · simp at ha
      rcases ha with rfl | rfl <;> simp [Action.isMutation]
    · simp at ha
      simp [ha, Action.isMutation]

/-- In dry-run mode the protection step only checks and logs. -/
lemma protectionStep_dry_no_mutation (w : World) (repo : Repo) :
    ∀ a ∈ (protectionStep w true repo).1, a.isMutation = false := by
  intro a ha
  unfold protectionStep at ha
  rcases hres : hasBranchProtection repo.fullName (w.protContexts repo.fullName)
    with e | b
  · rw [hres] at ha
    simp at ha
    simp [ha, Action.isMutation]
  · rw [hres] at ha
    cases b
    · simp at ha
      rcases ha with rfl | rfl <;> simp [Action.isMutation]
    · simp at ha
      simp [ha, Action.isMutation]

/-- In dry-run mode a repository's processing issues no mutating call. -/
lemma processRepo_dry_no_mutation (w : World) (url : String) (repo : Repo) :
    ∀ a ∈ (processRepo w true url repo).1, a.isMutation = false := by
  intro a ha
  unfold processRepo at ha
  rcases hc : getContributing repo.fullName (w.contributing repo.fullName)
    with e | doc
  · simp [hc] at ha
  · cases hd : isDCO doc
    · simp [hc, hd] at ha
    · simp only [hc, hd, Bool.not_true] at ha
      simp only [Bool.false_eq_true, if_false] at ha
      rcases hw : (webhookStep w true url repo).2 with _ | stop
      · rw [show (webhookStep w true url repo)
            = ((webhookStep w true url repo).1, (none : Option SweepStop)) from
          Prod.ext rfl hw] at ha
        simp only [List.mem_append] at ha
        rcases ha with ha | ha
        · exact webhookStep_dry_no_mutation w url repo a (by simpa using ha)
        · exact protectionStep_dry_no_mutation w repo a (by simpa using ha)
      · rw [show (webhookStep w true url repo)
            = ((webhookStep w true url repo).1, some stop) from
          Prod.ext rfl hw] at ha
        exact webhookStep_dry_no_mutation w url repo a (by simpa using ha)

/-- In dry-run mode the repository loop issues no mutating call. -/
lemma processRepos_dry_no_mutation (w : World) (url : String) :
    ∀ repos : List Repo, ∀ a ∈ (processRepos w true url repos).1,
      a.isMutation = false := by
  intro repos
  induction repos with
  | nil =>
    intro a ha
    simp [processRepos] at ha
  | cons r rest ih =>
    intro a ha
    unfold processRepos at ha
    rcases hs : (processRepo w true url r).2 with _ | stop
    · rw [show (processRepo w true url r)
          = ((processRepo w true url r).1, (none : Option SweepStop)) from
        Prod.ext rfl hs] at ha
      simp only [List.mem_append] at ha
      rcases ha with ha | ha
      · exact processRepo_dry_no_mutation w url r a (by simpa using ha)
      · exact ih a (by simpa using ha)
    · rw [show (processRepo w true url r)
          = ((processRepo w true url r).1, some stop) from
        Prod.ext rfl hs] at ha
      exact processRepo_dry_no_mutation w url r a (by simpa using ha)

/-- In dry-run mode an organization's processing issues no mutating
call. -/
lemma processOrg_dry_no_mutation (w : World) (url : String) (org : String) :
    ∀ a ∈ (processOrg w true url org).1, a.isMutation = false := by
  intro a ha
  unfold processOrg at ha
  rcases hl : listOrgRepos org (w.orgRepoPages org) with e | repos
  · rw [hl] at ha
    simp at ha
    simp [ha, Action.isMutation]
  · rw [hl] at ha
    simp only [List.mem_cons] at ha
    rcases ha with rfl | ha
    · simp [Action.isMutation]
    · exact processRepos_dry_no_mutation w url repos a (by simpa using ha)

/-- The remote state of the C5 scenario: one organization with one DCO
repository that has neither the webhook nor any branch protection. -/
def dryWorld : World :=
  { orgRepoPages := fun _ =>
      [.ok [⟨"widget", "acme/widget", "https://github.com/acme/widget", "master"⟩]]
    contributing := fun _ => .found "Developer Certificate of Origin"
    hookPages := fun _ => [.page []]
    createHookErr := fun _ => none
    protContexts := fun _ => .notFound
    getProtection := fun _ => ⟨none, some 404, none⟩
    updateProtErr := fun _ => none }

/-- C5: a dry-run sweep issues no mutating call over any remote state,
and over an organization with one DCO repository lacking both webhook
and protection it performs both existence checks and logs the two
would-configure actions, mutating nothing. -/
theorem dry_run_mutates_nothing :
    (∀ (w : World) (url : String) (orgs : List String),
      ∀ a ∈ (Register w true url orgs).1, a.isMutation = false) ∧
    Register dryWorld true "https://example.com/webhook" ["acme"]
      = ([.log ("checking all repos in the \"" ++ "acme" ++ "\" organization"),
          .checkHook "acme/widget",
          .log ("Installing webhook for " ++ "https://github.com/acme/widget" ++
            " (DRY RUN)"),
          .checkProtection "acme/widget",
          .log ("Configuring branch protection for " ++
            "https://github.com/acme/widget" ++ " (DRY RUN)")],
         none) := by
  constructor
  · intro w url orgs
    induction orgs with
    | nil =>
      intro a ha
      simp [Register] at ha
    | cons org rest ih =>
      intro a ha
      unfold Register at ha
      rcases hs : (processOrg w true url org).2 with _ | stop
      · rw [show (processOrg w true url org)
            = ((processOrg w true url org).1, (none : Option SweepStop)) from
          Prod.ext rfl hs] at ha
        simp only [List.mem_append] at ha
        rcases ha with ha | ha
        · exact processOrg_dry_no_mutation w url org a (by simpa using ha)
        · exact ih a (by simpa using ha)
      · rw [show (processOrg w true url org)
            = ((processOrg w true url org).1, some stop) from
          Prod.ext rfl hs] at ha
        exact processOrg_dry_no_mutation w url org a (by simpa using ha)
  · rfl

/-- C5 witness: the no-mutation clause applied to one action of the
dry-run scenario trace. -/
theorem dry_run_mutates_nothing_witness :
    (Action.log ("checking all repos in the \"" ++ "acme" ++ "\" organization")).isMutation
      = false := by
  apply dry_run_mutates_nothing.1 dryWorld "https://example.com/webhook" ["acme"]
  rw [dry_run_mutates_nothing.2]
  simp

end SignOffChecker
